import Mathlib

/-!
Verification of the documentation-build extension in `src/doc/ext/local.py`.

The module registers a Sphinx domain and a handful of docutils roles.  Its
only computational content is `make_github_link`, which turns a file path
into a docutils reference node pointing at a fixed GitHub location, and
`setup`, which performs the registrations.  We give a shallow embedding of
both, with the docutils global role registry and the Sphinx application as
explicit state.
-/

namespace Swoc

/-- The built-in docutils node classes that this extension refers to when it
registers generic text-styling roles. -/
inductive NodeClass where
  | emphasis
  | literal
  | strong
  deriving DecidableEq, Repr

/-- Stand-in for the docutils inliner (the enclosing-document context handed
to every role invocation).  `make_github_link` never inspects it. -/
structure Inliner where
  documentName : String
  deriving DecidableEq, Repr, Inhabited

/-- A docutils reference node as constructed by
`nodes.reference(rawtext, displaytext, refuri=..., **options)`: the raw
source text, the display text child, the target URI attribute, and the
passthrough options forwarded as further attributes. -/
structure ReferenceNode where
  rawsource : String
  text : String
  refuri : String
  options : List (String × String)
  deriving DecidableEq, Repr

/-- Helper for `basename`: keep the characters of a (reversed) character
list up to, but excluding, the first slash. -/
def takeUntilSep : List Char → List Char
  | [] => []
  | c :: rest => if c = '/' then [] else c :: takeUntilSep rest

/-- Models `os.path.basename` for POSIX paths as used by the source: the
suffix of `p` after the last slash, and `p` itself when `p` has no slash
(`posixpath.basename` returns `p[p.rfind(sep)+1:]`). -/
def basename (p : String) : String :=
  ⟨(takeUntilSep p.data.reverse).reverse⟩

/-- Models Python `str.format` with auto-numbered empty replacement fields,
as used on the fixed URL template of the source: each field, written as the
character pair `\x7b\x7d`, is replaced by the next argument in order.
(Python raises when arguments run out; the source always supplies exactly as
many arguments as fields, so that branch is never exercised and the model
leaves remaining text unchanged there.) -/
def formatFields : List Char → List String → List Char
  | [], _ => []
  | '\x7b' :: '\x7d' :: rest, a :: args => a.data ++ formatFields rest args
  | c :: rest, args => c :: formatFields rest args

/-- Python `template.format(args...)` on the templates modelled by
`formatFields`. -/
def pyFormat (template : String) (args : List String) : String :=
  ⟨formatFields template.data args⟩

/-- Embedding of `make_github_link` from `src/doc/ext/local.py`:

    def make_github_link(name, rawtext, text, lineno, inliner, options={}, content=[]):
        url = 'https://github.com/SolidWallOfCode/libswoc/blob/.../...'
        ref = 'master'
        node = nodes.reference(rawtext, os.path.basename(text), refuri=url.format(ref, text), **options)
        return [node], []

The second component of the result is the (always empty) list of system
messages. -/
def make_github_link (name : String) (rawtext : String) (text : String)
    (lineno : Nat) (inliner : Inliner)
    (options : List (String × String)) (content : List String) :
    List ReferenceNode × List String :=
  let url := "https://github.com/SolidWallOfCode/libswoc/blob/\x7b\x7d/\x7b\x7d"
  let ref := "master"
  let node : ReferenceNode := ⟨rawtext, basename text, pyFormat url [ref, text], options⟩
  ([node], [])

/-- The identity data of a Sphinx domain class: its `name`, `label` and
`data_version` class attributes. -/
structure DomainSpec where
  name : String
  label : String
  data_version : Nat
  deriving DecidableEq, Repr

/-- Embedding of the `SWOCDomain` class of `src/doc/ext/local.py`: a Sphinx
domain carrying only identity (name `swoc`, label `SWOC`, data_version 1)
and no behaviour. -/
def SWOCDomain : DomainSpec := ⟨"swoc", "SWOC", 1⟩

/-- The type of docutils role functions, with the calling convention of
`make_github_link`. -/
def RoleFn : Type :=
  String → String → String → Nat → Inliner → List (String × String) → List String →
    List ReferenceNode × List String

/-- The process-wide docutils registry of generic roles, written to by
`rst.roles.register_generic_role`: a finite map from role name to the
styling node class. -/
def GlobalRoles : Type := String → Option NodeClass

/-- Models `rst.roles.register_generic_role(name, nodeclass)`: updates the
process-wide docutils role registry at `n`. -/
def register_generic_role (g : GlobalRoles) (n : String) (c : NodeClass) : GlobalRoles :=
  fun m => if m = n then some c else g m

/-- The per-instance state of a Sphinx application that `setup` touches: the
registered domains and the roles attached to domains. -/
structure App where
  domains : List DomainSpec
  domainRoles : List (String × String × RoleFn)

/-- Models `app.add_domain(d)`. -/
def add_domain (a : App) (d : DomainSpec) : App :=
  ⟨a.domains ++ [d], a.domainRoles⟩

/-- Models `app.add_role_to_domain(domain, role, fn)`. -/
def add_role_to_domain (a : App) (dn rn : String) (f : RoleFn) : App :=
  ⟨a.domains, a.domainRoles ++ [(dn, rn, f)]⟩

/-- Embedding of `setup(app)` from `src/doc/ext/local.py`.  The docutils
generic-role registry is process-wide mutable state, so it is threaded
explicitly alongside the application instance. -/
def setup (g : GlobalRoles) (a : App) : GlobalRoles × App :=
  let g1 := register_generic_role g "arg" NodeClass.emphasis
  let g2 := register_generic_role g1 "const" NodeClass.literal
  let g3 := register_generic_role g2 "pack" NodeClass.strong
  let a1 := add_domain a SWOCDomain
  let a2 := add_role_to_domain a1 "swoc" "git" make_github_link
  (g3, a2)

/-! ### Helper lemmas about `takeUntilSep`, `basename` and `pyFormat` -/

theorem takeUntilSep_eq_self (l : List Char) (h : ∀ c ∈ l, c ≠ '/') :
    takeUntilSep l = l := by
  induction l with
  | nil => rfl
  | cons c rest ih =>
    have hc : c ≠ '/' := h c (List.mem_cons_self _ _)
    simp [takeUntilSep, hc, ih (fun d hd => h d (List.mem_cons_of_mem _ hd))]

theorem sep_not_mem_takeUntilSep (l : List Char) : '/' ∉ takeUntilSep l := by
  induction l with
  | nil => simp [takeUntilSep]
  | cons c rest ih =>
    by_cases hc : c = '/'
    · simp [takeUntilSep, hc]
    · simp only [takeUntilSep, if_neg hc]
      intro hmem
      rcases List.mem_cons.mp hmem with h1 | h2
      · exact hc h1.symm
      · exact ih h2

theorem takeUntilSep_split (l : List Char) (h : '/' ∈ l) :
    ∃ t, l = takeUntilSep l ++ '/' :: t := by
  induction l with
  | nil => cases h
  | cons c rest ih =>
    by_cases hc : c = '/'
    · exact ⟨rest, by simp [takeUntilSep, hc]⟩
    · have hr : '/' ∈ rest := by
        rcases List.mem_cons.mp h with h1 | h2
        · exact absurd h1.symm hc
        · exact h2
      obtain ⟨t, ht⟩ := ih hr
      refine ⟨t, ?_⟩
      simp only [takeUntilSep, if_neg hc, List.cons_append]
      exact congrArg (List.cons c) ht

/-- A path with no slash is its own basename. -/
theorem basename_no_sep (p : String) (h : '/' ∉ p.data) : basename p = p := by
  unfold basename
  have h' : ∀ c ∈ p.data.reverse, c ≠ '/' := by
    intro c hc e
    exact h (e ▸ List.mem_reverse.mp hc)
  rw [takeUntilSep_eq_self _ h', List.reverse_reverse]

/-- A path containing a slash splits as some text, a slash, then its
basename, and the basename contains no further slash. -/
theorem basename_split (p : String) (h : '/' ∈ p.data) :
    ∃ q : String, p = q ++ "/" ++ basename p ∧ '/' ∉ (basename p).data := by
  have hrev : '/' ∈ p.data.reverse := List.mem_reverse.mpr h
  obtain ⟨t, ht⟩ := takeUntilSep_split _ hrev
  have hd : p.data = (t.reverse ++ ['/']) ++ (takeUntilSep p.data.reverse).reverse := by
    have hr := congrArg List.reverse ht
    rw [List.reverse_reverse, List.reverse_append, List.reverse_cons] at hr
    exact hr
  refine ⟨⟨t.reverse⟩, ?_, ?_⟩
  · exact congrArg String.mk hd
  · intro hmem
    exact sep_not_mem_takeUntilSep _ (List.mem_reverse.mp hmem)

/-- A path ending in a slash has empty basename. -/
theorem basename_trailing (p q : String) (h : p = q ++ "/") : basename p = "" := by
  subst h
  unfold basename
  have hrev : (q ++ "/").data.reverse = '/' :: q.data.reverse := by
    show (q.data ++ ['/']).reverse = _
    rw [List.reverse_append]
    rfl
  rw [hrev]
  rfl

/-- Substituting `r` and `t` into the fixed URL template. -/
theorem format_url (r t : String) :
    pyFormat "https://github.com/SolidWallOfCode/libswoc/blob/\x7b\x7d/\x7b\x7d" [r, t]
      = "https://github.com/SolidWallOfCode/libswoc/blob/" ++ r ++ "/" ++ t := by
  have h : formatFields
      "https://github.com/SolidWallOfCode/libswoc/blob/\x7b\x7d/\x7b\x7d".data [r, t]
      = ("https://github.com/SolidWallOfCode/libswoc/blob/" ++ r ++ "/" ++ t).data := by
    show "https://github.com/SolidWallOfCode/libswoc/blob/".data
          ++ (r.data ++ ('/' :: (t.data ++ [])))
        = (("https://github.com/SolidWallOfCode/libswoc/blob/".data ++ r.data) ++ ['/'])
          ++ t.data
    simp
  exact congrArg String.mk h

/-- Substituting the reference `master` into the fixed URL template yields
the fixed link root followed by the path. -/
theorem format_url_master (t : String) :
    pyFormat "https://github.com/SolidWallOfCode/libswoc/blob/\x7b\x7d/\x7b\x7d" ["master", t]
      = "https://github.com/SolidWallOfCode/libswoc/blob/master/" ++ t := by
  have h : formatFields
      "https://github.com/SolidWallOfCode/libswoc/blob/\x7b\x7d/\x7b\x7d".data ["master", t]
      = "https://github.com/SolidWallOfCode/libswoc/blob/master/".data ++ (t.data ++ []) := rfl
  have h2 : "https://github.com/SolidWallOfCode/libswoc/blob/master/".data ++ (t.data ++ [])
      = "https://github.com/SolidWallOfCode/libswoc/blob/master/".data ++ t.data := by
    rw [List.append_nil]
  exact congrArg String.mk (h.trans h2)

/-! ### Claim theorems -/

/-- C1: for every non-empty path string `p` that contains no path
separator, `make_github_link` produces a reference node whose display text
equals `p` exactly and whose URL equals
`https://github.com/SolidWallOfCode/libswoc/blob/master/` followed by `p`. -/
theorem git_link_no_sep (name rawtext p : String) (lineno : Nat) (inliner : Inliner)
    (options : List (String × String)) (content : List String)
    (hne : p ≠ "") (hsep : '/' ∉ p.data) :
    ∃ node : ReferenceNode,
      (make_github_link name rawtext p lineno inliner options content).1 = [node]
      ∧ node.text = p
      ∧ node.refuri = "https://github.com/SolidWallOfCode/libswoc/blob/master/" ++ p := by
  exact ⟨_, rfl, basename_no_sep p hsep, format_url_master p⟩

theorem git_link_no_sep_witness :
    ("README.md" ≠ "" ∧ '/' ∉ "README.md".data)
    ∧ ∃ node : ReferenceNode,
        (make_github_link "git" "README.md" "README.md" 1 ⟨"doc"⟩ [] []).1 = [node]
        ∧ node.text = "README.md"
        ∧ node.refuri = "https://github.com/SolidWallOfCode/libswoc/blob/master/" ++ "README.md" :=
  ⟨⟨by decide, by decide⟩,
   git_link_no_sep "git" "README.md" "README.md" 1 ⟨"doc"⟩ [] [] (by decide) (by decide)⟩

/-- C2: for every path string `p` containing at least one separator,
`make_github_link` produces display text equal to the final segment of `p`
after the last separator (the segment carries no further separator), while
the URL embeds the full original `p`. -/
theorem git_link_with_sep (name rawtext p : String) (lineno : Nat) (inliner : Inliner)
    (options : List (String × String)) (content : List String)
    (hsep : '/' ∈ p.data) :
    ∃ node : ReferenceNode,
      (make_github_link name rawtext p lineno inliner options content).1 = [node]
      ∧ (∃ q : String, p = q ++ "/" ++ node.text ∧ '/' ∉ node.text.data)
      ∧ node.refuri = "https://github.com/SolidWallOfCode/libswoc/blob/master/" ++ p := by
  obtain ⟨q, hq, hmem⟩ := basename_split p hsep
  exact ⟨_, rfl, ⟨q, hq, hmem⟩, format_url_master p⟩

theorem git_link_with_sep_witness :
    '/' ∈ "src/core/BufferWriter.cc".data
    ∧ ∃ node : ReferenceNode,
        (make_github_link "git" "src/core/BufferWriter.cc" "src/core/BufferWriter.cc"
            1 ⟨"doc"⟩ [] []).1 = [node]
        ∧ (∃ q : String, "src/core/BufferWriter.cc" = q ++ "/" ++ node.text
            ∧ '/' ∉ node.text.data)
        ∧ node.refuri = "https://github.com/SolidWallOfCode/libswoc/blob/master/"
            ++ "src/core/BufferWriter.cc" :=
  ⟨by decide,
   git_link_with_sep "git" "src/core/BufferWriter.cc" "src/core/BufferWriter.cc"
     1 ⟨"doc"⟩ [] [] (by decide)⟩

/-- C3: for every input, the URL embedded in the node returned by
`make_github_link` has the form
`https://github.com/SolidWallOfCode/libswoc/blob/` + ref + `/` + path with
the ref always the literal `master`; no argument can change it. -/
theorem git_link_ref_always_master (name rawtext text : String) (lineno : Nat)
    (inliner : Inliner) (options : List (String × String)) (content : List String) :
    ∃ node : ReferenceNode,
      (make_github_link name rawtext text lineno inliner options content).1 = [node]
      ∧ node.refuri
          = "https://github.com/SolidWallOfCode/libswoc/blob/" ++ "master" ++ "/" ++ text :=
  ⟨_, rfl, format_url "master" text⟩

/-- C4: `make_github_link` is total: for every path string, options mapping
and content list it returns a well-formed result — a single reference node
whose fields are the raw text, the basename display text, an `https://` URL,
and the passthrough options — together with no messages. -/
theorem git_link_total (name rawtext text : String) (lineno : Nat) (inliner : Inliner)
    (options : List (String × String)) (content : List String) :
    ∃ node : ReferenceNode,
      make_github_link name rawtext text lineno inliner options content = ([node], [])
      ∧ node.rawsource = rawtext
      ∧ node.text = basename text
      ∧ node.options = options
      ∧ ∃ tail : String, node.refuri = "https://" ++ tail :=
  ⟨_, rfl, rfl, rfl, rfl,
   ⟨"github.com/SolidWallOfCode/libswoc/blob/master/" ++ text,
    (format_url_master text).trans rfl⟩⟩

/-- C5: every invocation of `make_github_link` returns exactly a one-element
node list together with an empty auxiliary-messages list. -/
theorem git_link_shape (name rawtext text : String) (lineno : Nat) (inliner : Inliner)
    (options : List (String × String)) (content : List String) :
    ∃ node : ReferenceNode,
      make_github_link name rawtext text lineno inliner options content = ([node], [])
      ∧ (make_github_link name rawtext text lineno inliner options content).1.length = 1
      ∧ (make_github_link name rawtext text lineno inliner options content).2 = [] :=
  ⟨_, rfl, rfl, rfl⟩

/-- C6: for the empty path string, `make_github_link` produces empty display
text and the URL `https://github.com/SolidWallOfCode/libswoc/blob/master/`,
the repository root of the fixed reference. -/
theorem git_link_empty_path (name rawtext : String) (lineno : Nat) (inliner : Inliner)
    (options : List (String × String)) (content : List String) :
    ∃ node : ReferenceNode,
      (make_github_link name rawtext "" lineno inliner options content).1 = [node]
      ∧ node.text = ""
      ∧ node.refuri = "https://github.com/SolidWallOfCode/libswoc/blob/master/" :=
  ⟨_, rfl, rfl, rfl⟩

/-- C7: `setup` registers exactly the three generic styling roles `arg`,
`const` and `pack` (mapped to emphasis, literal and strong, leaving every
other name in the global registry untouched), adds the `swoc` domain
identity, and attaches `make_github_link` to the pair (`swoc`, `git`). -/
theorem setup_registrations (g : GlobalRoles) (a : App) :
    (setup g a).1 "arg" = some NodeClass.emphasis
    ∧ (setup g a).1 "const" = some NodeClass.literal
    ∧ (setup g a).1 "pack" = some NodeClass.strong
    ∧ (∀ n, n ≠ "arg" → n ≠ "const" → n ≠ "pack" → (setup g a).1 n = g n)
    ∧ (setup g a).2.domains = a.domains ++ [SWOCDomain]
    ∧ (setup g a).2.domainRoles
        = a.domainRoles ++ [(("swoc", "git", make_github_link) : String × String × RoleFn)] := by
  refine ⟨rfl, rfl, rfl, ?_, rfl, rfl⟩
  intro n h1 h2 h3
  simp [setup, register_generic_role, h1, h2, h3]

theorem setup_registrations_witness :
    (setup (fun _ => none) ⟨[], []⟩).1 "arg" = some NodeClass.emphasis
    ∧ (setup (fun _ => none) ⟨[], []⟩).1 "const" = some NodeClass.literal
    ∧ (setup (fun _ => none) ⟨[], []⟩).1 "pack" = some NodeClass.strong
    ∧ (("git" ≠ "arg" ∧ "git" ≠ "const" ∧ "git" ≠ "pack")
        ∧ (setup (fun _ => none) ⟨[], []⟩).1 "git" = none)
    ∧ (setup (fun _ => none) ⟨[], []⟩).2.domains = [SWOCDomain]
    ∧ (setup (fun _ => none) ⟨[], []⟩).2.domainRoles
        = [(("swoc", "git", make_github_link) : String × String × RoleFn)] := by
  have h := setup_registrations (fun _ => none) ⟨[], []⟩
  exact ⟨h.1, h.2.1, h.2.2.1,
    ⟨⟨by decide, by decide, by decide⟩,
     h.2.2.2.1 "git" (by decide) (by decide) (by decide)⟩,
    h.2.2.2.2.1, h.2.2.2.2.2⟩

/-- C8: running `setup` against two independent application instances
produces two independent domain identities: each instance ends with the
`swoc` domain appended to its own prior state, and the application-level
result of `setup` is unaffected by what an earlier `setup` on a different
instance wrote to the shared global role registry. -/
theorem setup_independent_instances (g : GlobalRoles) (a1 a2 : App) :
    (setup g a1).2.domains = a1.domains ++ [SWOCDomain]
    ∧ (setup (setup g a1).1 a2).2.domains = a2.domains ++ [SWOCDomain]
    ∧ (setup (setup g a1).1 a2).2 = (setup g a2).2
    ∧ (setup (setup (setup g a1).1 a2).1 a1).2 = (setup g a1).2 :=
  ⟨rfl, rfl, rfl, rfl⟩

/-- C9: for every path string ending in a path separator, the display text
is the empty string while the URL still embeds the full original path,
trailing separator included. -/
theorem git_link_trailing_sep (name rawtext p : String) (lineno : Nat) (inliner : Inliner)
    (options : List (String × String)) (content : List String)
    (h : ∃ q : String, p = q ++ "/") :
    ∃ node : ReferenceNode,
      (make_github_link name rawtext p lineno inliner options content).1 = [node]
      ∧ node.text = ""
      ∧ node.refuri = "https://github.com/SolidWallOfCode/libswoc/blob/master/" ++ p := by
  obtain ⟨q, hq⟩ := h
  exact ⟨_, rfl, basename_trailing p q hq, format_url_master p⟩

theorem git_link_trailing_sep_witness :
    (∃ q : String, "a/b/" = q ++ "/")
    ∧ ∃ node : ReferenceNode,
        (make_github_link "git" "a/b/" "a/b/" 1 ⟨"doc"⟩ [] []).1 = [node]
        ∧ node.text = ""
        ∧ node.refuri = "https://github.com/SolidWallOfCode/libswoc/blob/master/" ++ "a/b/" :=
  ⟨⟨"a/b", by decide⟩,
   git_link_trailing_sep "git" "a/b/" "a/b/" 1 ⟨"doc"⟩ [] [] ⟨"a/b", by decide⟩⟩

/-- C10: `make_github_link` is deterministic and its output depends only on
the `rawtext`, `text` and `options` arguments: two invocations agreeing on
those three but differing in `name`, `lineno`, `inliner` or `content` return
equal results. -/
theorem git_link_deterministic (rawtext text : String) (options : List (String × String))
    (n1 n2 : String) (l1 l2 : Nat) (i1 i2 : Inliner) (c1 c2 : List String) :
    make_github_link n1 rawtext text l1 i1 options c1
      = make_github_link n2 rawtext text l2 i2 options c2 := rfl

end Swoc
